import Mathlib

/-!
Verification development for the devio block-device proxy server
(src/devio/devio.c of the ImDisk repository).

The embedding models the backing store as a byte-addressed file
(`Disk`), the dynamic-VHD engine (`vhd_read`, `vhd_write`) as pure
functions over that store, and the protocol engine (`read_data`,
`write_data`, `do_request`) as state transformers on a session state.

Modelling conventions, fixed once here:

* Machine integers are `Nat` (offsets, sizes, byte values) except where a
  signed return value matters, where `Int` is used (`-1` is the failure
  sentinel of `safeio_ssize_t`).  Where the C source truncates to a fixed
  width the model takes `% 2^w` explicitly.
* The backing store never fails on reads: `pread` of a regular file
  returns `min n (size - off)` bytes (short only past end-of-file) and
  never `-1`.  Writes go through an explicit result schedule
  (`WState.sched`) so that short and failed writes can be modelled; an
  empty schedule means every write transfers fully.
* `malloc` and `lseek` are modelled as succeeding: allocation failure of
  scratch buffers is outside the address-translation logic under test.
* Recursive VHD operations are defined structurally on a fuel argument;
  every call site passes `io.length + 1`, which the lemmas below show is
  always sufficient because each recursive step strictly shrinks the
  buffer.
-/

namespace Devio

/-- Errno value E2BIG, substituted by the VHD engine when the backing
store reports an error while errno is 0 (devio.c lines 734, 810, 887,
910, 945). -/
def E2BIG : Nat := 7

/-- Errno value EBADF, returned for a write attempt on a read-only
device (devio.c line 1091). -/
def EBADF : Nat := 9

/-- Two's-complement 64-bit pattern of a byte read through `int8_t`:
values 128..255 sign-extend to the high 56 bits.  This is the value of
the C expression `(int64_t)storage[i]` where `storage` is `int8_t*`. -/
def sext8 (b : Nat) : Nat :=
  if b % 256 < 128 then b % 256 else (2 ^ 64 - 256) + b % 256

/-- Model of `GetBigEndian64` (devio.c lines 212-221).  The source ORs
`(int64_t)storage[i] << ((8 - i - 1) << 3)` into an `int64_t`
accumulator; the model works on the 64-bit two's-complement pattern, so
each term is truncated to 64 bits before the OR. -/
def GetBigEndian64 (storage : Nat → Nat) : Nat :=
  (List.range 8).foldl
    (fun number i => number ||| (sext8 (storage i) <<< ((8 - i - 1) * 8)) % 2 ^ 64)
    0

/-- Modelled from the spec: the big-endian 64-bit load primitive of
spec section 4.A, the sum of `b[i] * 2^(8*(7-i))` over the 8 bytes.
Present for comparison with `GetBigEndian64`. -/
def bigEndian64Spec (storage : Nat → Nat) : Nat :=
  (List.range 8).foldl (fun number i => number + storage i * 2 ^ (8 * (7 - i))) 0

/-- The backing store: a byte-addressed file.  `data` gives the byte at
each offset (only offsets `< size` are ever read back). -/
structure Disk where
  data : Nat → Nat
  size : Nat

/-- Number of bytes a `pread` of `n` bytes at `off` transfers: short
only when the request runs past end-of-file, never failing. -/
def preadLen (d : Disk) (n off : Nat) : Nat := min n (d.size - off)

/-- The bytes `pread` places in the destination buffer. -/
def preadBytes (d : Disk) (n off : Nat) : List Nat :=
  (List.range (preadLen d n off)).map fun i => d.data (off + i)

/-- Effect of transferring `n` bytes from `src` to the file at `off`:
the file grows when the write runs past the old end-of-file, and a
0-byte write leaves the file untouched. -/
def pwrite (d : Disk) (src : Nat → Nat) (n off : Nat) : Disk :=
  if n = 0 then d
  else
    { data := fun a => if off ≤ a ∧ a < off + n then src (a - off) else d.data a,
      size := max d.size (off + n) }

/-- VHD geometry derived once at startup (devio.c lines 1408-1425):
`block_size = 2 ^ block_shift` as established by the shift-search loop,
`table_offset` and `current_size` from the big-endian header/footer
fields, and the verbatim 512-byte footer copy kept in `vhd_info`. -/
structure VhdCfg where
  block_shift : Nat
  table_offset : Nat
  current_size : Nat
  footer : Nat → Nat

/-- Bytes per VHD block. -/
def block_size (c : VhdCfg) : Nat := 2 ^ c.block_shift

/-- Bytes per sector, fixed at 512 (devio.c line 300). -/
def sector_size : Nat := 512

/-- log2 of the sector size (devio.c lines 1434-1437). -/
def sector_shift : Nat := 9

/-- The sparse test of the source: the raw 32-bit load of a BAT entry
compares equal to `0xFFFFFFFF` exactly when all four bytes are 255,
independently of host byte order. -/
def batSparse (d : Disk) (off : Nat) : Bool :=
  (d.data off == 255) && (d.data (off + 1) == 255) &&
  (d.data (off + 2) == 255) && (d.data (off + 3) == 255)

/-- Value of `ntohl` applied to the four BAT-entry bytes at `off`: the
big-endian 32-bit parse. -/
def batValue (d : Disk) (off : Nat) : Nat :=
  d.data off * 2 ^ 24 + d.data (off + 1) * 2 ^ 16 +
  d.data (off + 2) * 2 ^ 8 + d.data (off + 3)

/-- The four bytes `htonl v` stores on disk for a BAT entry (big-endian
byte order), as a source function for `pwrite`. -/
def be32Bytes (v : Nat) : Nat → Nat :=
  fun j => (v >>> ((3 - j) * 8)) % 256

/-- Result of `vhd_read`: the `safeio_ssize_t` return value, the final
contents of the caller's buffer, and the list of physical reads issued
as (size, offset) pairs. -/
structure RdOut where
  res : Int
  buf : List Nat
  trace : List (Nat × Nat)
  deriving Repr, DecidableEq

/-- Model of `vhd_read` (devio.c lines 701-770), structurally recursive
on fuel.  Mirrors the source: clip against `current_size`; split at the
block boundary; read the BAT entry (4 bytes at
`table_offset + (block_number << 2)`), failing with -1 on a short read;
`memset` the whole remaining buffer to zero; for a sparse entry count
`first_size` as read, otherwise issue the physical read of the first
part twice in sequence (the source's duplicated read, lines 752-753,
the second result being kept); recurse on the tail.  The
`readdone == -1` test after the data read (line 754) is vacuous here
because the modelled `pread` never fails. -/
def vhd_read_go (c : VhdCfg) (d : Disk) : Nat → List Nat → Nat → RdOut
  | 0, io, _ => ⟨-1, io, []⟩
  | fuel + 1, io, offset =>
    let size := io.length
    if offset + size > c.current_size then ⟨0, io, []⟩
    else
      let block_number := offset >>> c.block_shift
      let data_offset := c.table_offset + (block_number <<< 2)
      let in_block_offset := offset &&& (block_size c - 1)
      let first_size :=
        if size + in_block_offset > block_size c then block_size c - in_block_offset else size
      let second_size := size - first_size
      let second_offset := offset + first_size
      if preadLen d 4 data_offset ≠ 4 then ⟨-1, io, [(4, data_offset)]⟩
      else
        let z : List Nat := List.replicate size 0
        let sparse := batSparse d data_offset
        let phys_off := (batValue d data_offset <<< sector_shift) + sector_size + in_block_offset
        let k := preadLen d first_size phys_off
        let first_part : List Nat :=
          if sparse then z.take first_size
          else preadBytes d first_size phys_off ++ (z.take first_size).drop k
        let readdone : Int := if sparse then (first_size : Int) else (k : Int)
        let trace1 : List (Nat × Nat) :=
          if sparse then [(4, data_offset)]
          else [(4, data_offset), (first_size, phys_off), (first_size, phys_off)]
        if second_size > 0 then
          let t := vhd_read_go c d fuel (z.drop first_size) second_offset
          if t.res = -1 then ⟨-1, first_part ++ t.buf, trace1 ++ t.trace⟩
          else ⟨readdone + t.res, first_part ++ t.buf, trace1 ++ t.trace⟩
        else ⟨readdone, first_part, trace1⟩

/-- Entry point of the modelled `vhd_read`; the fuel `io.length + 1` is
always sufficient (each recursive step strictly shrinks the buffer). -/
def vhd_read (c : VhdCfg) (d : Disk) (io : List Nat) (offset : Nat) : RdOut :=
  vhd_read_go c d (io.length + 1) io offset

/-- Modelled from the spec: the reference read algorithm of spec
section 4.C (steps 1-4), kept for comparison with `vhd_read`.  Same
clip, split and BAT load as the source, but: a sparse entry zero-fills
only that part of the caller's buffer; a non-sparse entry issues the
physical read of the first part once.  The BAT-load failure convention
(-1 on a short table read) follows the code, as the spec leaves it
unspecified. -/
def vhd_read_spec_go (c : VhdCfg) (d : Disk) : Nat → List Nat → Nat → RdOut
  | 0, io, _ => ⟨-1, io, []⟩
  | fuel + 1, io, offset =>
    let size := io.length
    if offset + size > c.current_size then ⟨0, io, []⟩
    else
      let block_number := offset >>> c.block_shift
      let data_offset := c.table_offset + (block_number <<< 2)
      let in_block_offset := offset &&& (block_size c - 1)
      let first_size :=
        if size + in_block_offset > block_size c then block_size c - in_block_offset else size
      let second_size := size - first_size
      let second_offset := offset + first_size
      if preadLen d 4 data_offset ≠ 4 then ⟨-1, io, [(4, data_offset)]⟩
      else
        let sparse := batSparse d data_offset
        let phys_off := (batValue d data_offset <<< sector_shift) + sector_size + in_block_offset
        let k := preadLen d first_size phys_off
        let first_part : List Nat :=
          if sparse then List.replicate first_size 0
          else preadBytes d first_size phys_off ++ (io.take first_size).drop k
        let readdone : Int := if sparse then (first_size : Int) else (k : Int)
        let trace1 : List (Nat × Nat) :=
          if sparse then [(4, data_offset)]
          else [(4, data_offset), (first_size, phys_off)]
        if second_size > 0 then
          let t := vhd_read_spec_go c d fuel (io.drop first_size) second_offset
          if t.res = -1 then ⟨-1, first_part ++ t.buf, trace1 ++ t.trace⟩
          else ⟨readdone + t.res, first_part ++ t.buf, trace1 ++ t.trace⟩
        else ⟨readdone, first_part, trace1⟩

/-- Entry point of the reference read algorithm. -/
def vhd_read_spec (c : VhdCfg) (d : Disk) (io : List Nat) (offset : Nat) : RdOut :=
  vhd_read_spec_go c d (io.length + 1) io offset

/-- One backing-store write result in the schedule: `r` is the
`safeio_ssize_t` the write returns (-1 or a byte count), `e` the errno
the store sets when it returns -1. -/
structure WRes where
  r : Int
  e : Nat
  deriving Repr, DecidableEq

/-- State threaded through the VHD write path: the file, the schedule
of outcomes for the next physical writes (empty = all writes transfer
fully), and the process-wide errno. -/
structure WState where
  d : Disk
  sched : List WRes
  errno : Nat

/-- Model of `physical_write` on the backing store.  A scheduled -1
writes nothing and sets errno; a scheduled short count transfers that
many bytes; an exhausted schedule means full success. -/
def physical_write (s : WState) (src : Nat → Nat) (n off : Nat) : Int × WState :=
  match s.sched with
  | [] => ((n : Int), { s with d := pwrite s.d src n off })
  | w :: rest =>
    if w.r < 0 then (-1, { d := s.d, sched := rest, errno := w.e })
    else
      let k := min w.r.toNat n
      ((k : Int), { d := pwrite s.d src k off, sched := rest, errno := s.errno })

/-- The errno substitution `if (errno == 0) errno = E2BIG` performed by
the VHD engine on failed table/block/bitmap transfers. -/
def errSubst (e : Nat) : Nat := if e = 0 then E2BIG else e

/-- Block allocation (devio.c lines 816-917): the new block is placed
where the footer currently sits (`lseek(fd, -512, SEEK_END)`, modelled
as `size - 512`); the BAT entry receives
`htonl((uint32_t)(block_offset_bytes >> sector_shift))`; then
`sector_size + block_size` zero bytes followed by the saved footer are
written at that position.  `Sum.inl` is the failure state (short BAT or
block transfer, with the errno substitution); `Sum.inr` carries the new
entry's sector index and the state.  `malloc` of the scratch block
buffer is modelled as succeeding. -/
def vhd_alloc_block (c : VhdCfg) (s : WState) (data_offset : Nat) : WState ⊕ (Nat × WState) :=
  let block_offset_bytes := s.d.size - sector_size
  let v := (block_offset_bytes >>> sector_shift) % 2 ^ 32
  let w1 := physical_write s (be32Bytes v) 4 data_offset
  if w1.1 ≠ 4 then Sum.inl { w1.2 with errno := errSubst w1.2.errno }
  else
    let blocklen := sector_size + block_size c + sector_size
    let src := fun j =>
      if j < sector_size + block_size c then 0
      else c.footer (j - (sector_size + block_size c))
    let w2 := physical_write w1.2 src blocklen block_offset_bytes
    if w2.1 ≠ (blocklen : Int) then Sum.inl { w2.2 with errno := errSubst w2.2.errno }
    else Sum.inr (v, w2.2)

/-- Data write and bitmap update (devio.c lines 919-949): the caller's
bytes go to `(entry << sector_shift) + sector_size + in_block`; the
request fails only if that write returns -1 (a short count falls
through); then `bitmap_datasize` bytes of 0xFF update the allocation
bitmap, any short transfer failing the request with the errno
substitution.  `Sum.inl` is the failure state; `Sum.inr` carries the
data write's count and the state. -/
def vhd_write_data_bitmap (s : WState) (entryVal in_block_offset first_size : Nat)
    (io : List Nat) : WState ⊕ (Int × WState) :=
  let data_off := (entryVal <<< sector_shift) + sector_size + in_block_offset
  let wd := physical_write s (fun j => io.getD j 0) first_size data_off
  if wd.1 = -1 then Sum.inl wd.2
  else
    let bitmap_offset := (entryVal <<< sector_shift) + (in_block_offset >>> sector_shift >>> 3)
    let bitmap_datasize := (((first_size + sector_size - 1) >>> sector_shift) + 7) >>> 3
    let wb := physical_write wd.2 (fun _ => 255) bitmap_datasize bitmap_offset
    if wb.1 ≠ (bitmap_datasize : Int) then Sum.inl { wb.2 with errno := errSubst wb.2.errno }
    else Sum.inr (wd.1, wb.2)

/-- Model of `vhd_write` (devio.c lines 772-963), structurally
recursive on fuel.  Mirrors the source: clip, split, BAT load (-1 on a
short table read); for a sparse entry, the zero-detection loop

    for (buf_ptr = io_ptr;
         (buf_ptr < io_ptr + first_size_nqwords) ? 0 : (*buf_ptr == 0);
         buf_ptr++);
    if (buf_ptr >= io_ptr + first_size_nqwords) skip;

whose guard evaluates to 0 on the very first iteration whenever
`first_size_nqwords >= 1`, so `buf_ptr` never advances and the skip
branch is taken exactly when `first_size_nqwords = 0`; otherwise
allocate through `vhd_alloc_block`, then fall through to
`vhd_write_data_bitmap` (for a non-sparse entry `ntohl` of the loaded
entry gives the sector index directly), and recurse on the tail. -/
def vhd_write_go (c : VhdCfg) : Nat → WState → List Nat → Nat → Int × WState
  | 0, s, _, _ => (-1, s)
  | fuel + 1, s, io, offset =>
    let size := io.length
    if offset + size > c.current_size then (0, s)
    else
      let block_number := offset >>> c.block_shift
      let data_offset := c.table_offset + (block_number <<< 2)
      let in_block_offset := offset &&& (block_size c - 1)
      let first_size :=
        if size + in_block_offset > block_size c then block_size c - in_block_offset else size
      let second_size := size - first_size
      let second_offset := offset + first_size
      let first_size_nqwords := (first_size + 7) >>> 3
      if preadLen s.d 4 data_offset ≠ 4 then (-1, { s with errno := errSubst s.errno })
      else
        let sparse := batSparse s.d data_offset
        if sparse && (first_size_nqwords == 0) then
          if second_size > 0 then
            let t := vhd_write_go c fuel s (io.drop first_size) second_offset
            if t.1 = -1 then (-1, t.2) else ((first_size : Int) + t.1, t.2)
          else ((first_size : Int), s)
        else
          Sum.elim (fun sf => ((-1 : Int), sf))
            (fun vs =>
              Sum.elim (fun sf => ((-1 : Int), sf))
                (fun ws =>
                  if second_size > 0 then
                    let t := vhd_write_go c fuel ws.2 (io.drop first_size) second_offset
                    if t.1 = -1 then (-1, t.2) else (ws.1 + t.1, t.2)
                  else (ws.1, ws.2))
                (vhd_write_data_bitmap vs.2 vs.1 in_block_offset first_size io))
            (if sparse then vhd_alloc_block c s data_offset
             else Sum.inr (batValue s.d data_offset, s))

/-- Entry point of the modelled `vhd_write`. -/
def vhd_write (c : VhdCfg) (s : WState) (io : List Nat) (offset : Nat) : Int × WState :=
  vhd_write_go c (io.length + 1) s io offset

/-- Default buffer size: `(sizeof(void*) << 3) << 20` = 64 MiB on a
64-bit host (devio.c line 202). -/
def DEF_BUFFER_SIZE : Nat := 2 ^ 26

/-- The clamp `((safeio_size_t)-1) >> 1` of `buf_realloc` with a 64-bit
`size_t`. -/
def maxBuf : Nat := 2 ^ 63 - 1

/-- Effect of `buf_realloc` (devio.c lines 586-654) on `buffer_size`:
a no-op in shared-memory mode, otherwise the requested size clamped to
half the address space.  (The source assigns `buffer_size` before the
allocation, so the new value stands whether or not `malloc` succeeds;
the model assumes allocation succeeds.) -/
def buf_realloc (shm_mode : Bool) (bs new_size : Nat) : Nat :=
  if shm_mode then bs else min new_size maxBuf

/-- Response and session effect of `read_data` (devio.c lines
983-1058): errorno/length of the response record, the payload sent when
errorno = 0, and the buffer size after the request. -/
structure ReadOut where
  errorno : Nat
  length : Nat
  payload : List Nat
  bs : Nat
  deriving Repr, DecidableEq

/-- Model of `read_data`.  Grows the buffer when the request exceeds
it, clips the served size to `min(length, buffer_size)`, zeroes the
I/O buffer, calls the logical read (VHD engine or direct `pread`), and
reports errorno 0 with `length = size` on success — the source sets
`resp_block.length = size`, not the transferred count (line 1025); a
short transfer is only logged.  On a logical-read failure the response
carries the errno (here always `E2BIG`: the modelled store never fails,
so -1 can only come from the VHD table-read path with errno 0 at entry)
and length 0. -/
def read_data (vhd_mode shm_mode : Bool) (c : VhdCfg) (d : Disk) (image_offset : Nat)
    (bs : Nat) (roff rlen : Nat) : ReadOut :=
  let bs1 := if rlen > bs then buf_realloc shm_mode bs rlen else bs
  let size := min rlen bs1
  let z : List Nat := List.replicate size 0
  let rr : Int × List Nat :=
    if vhd_mode then
      let o := vhd_read c d z (image_offset + roff)
      (o.res, o.buf)
    else
      let k := preadLen d size (image_offset + roff)
      ((k : Int), preadBytes d size (image_offset + roff) ++ z.drop k)
  if rr.1 = -1 then ⟨E2BIG, 0, [], bs1⟩
  else ⟨0, size, rr.2.take size, bs1⟩

/-- Count of bytes the logical layer transfers for a read request, as
reported by `logical_read`'s return value inside `read_data`. -/
def read_transferred (vhd_mode shm_mode : Bool) (c : VhdCfg) (d : Disk) (image_offset : Nat)
    (bs : Nat) (roff rlen : Nat) : Int :=
  let bs1 := if rlen > bs then buf_realloc shm_mode bs rlen else bs
  let size := min rlen bs1
  if vhd_mode then (vhd_read c d (List.replicate size 0) (image_offset + roff)).res
  else (preadLen d size (image_offset + roff) : Int)

/-- Response and session effect of `write_data` (devio.c lines
1060-1147): whether the session was torn down without a response (the
too-big-write path), the errorno/length of the response, and the file
afterwards. -/
structure WrOut where
  aborted : Bool
  errorno : Nat
  length : Nat
  d : Disk

/-- Model of `write_data`.  A request larger than the buffer is logged
and ends the session before any data is read or written; otherwise the
payload is received, and if the device is read-only the response is
errorno EBADF with length 0 and the store is untouched; otherwise the
logical write runs (VHD engine with an all-success schedule, or direct
`pwrite`) and its count is echoed in the response (`resp_block.length =
writedone`, the -1 case wrapping to `2^64 - 1` through the u64 field). -/
def write_data (vhd_mode ro : Bool) (c : VhdCfg) (d : Disk) (image_offset : Nat)
    (bs : Nat) (woff wlen : Nat) (data : List Nat) : WrOut :=
  if wlen > bs then ⟨true, 0, 0, d⟩
  else
    let iobuf : List Nat := (List.range wlen).map fun j => data.getD j 0
    if ro then ⟨false, EBADF, 0, d⟩
    else
      let wr : Int × WState :=
        if vhd_mode then vhd_write c ⟨d, [], 0⟩ iobuf (image_offset + woff)
        else ((wlen : Int), ⟨pwrite d (fun j => iobuf.getD j 0) wlen (image_offset + woff), [], 0⟩)
      if wr.1 = -1 then ⟨false, wr.2.errno, 2 ^ 64 - 1, wr.2.d⟩
      else ⟨false, 0, wr.1.toNat, wr.2.d⟩

/-- One client request as dispatched by the `do_comm` loop (devio.c
lines 2185-2218). -/
inductive Request where
  | info : Request
  | read : Nat → Nat → Request
  | write : Nat → Nat → List Nat → Request
  | other : Nat → Request

/-- Session state the request loop mutates: the buffer size and the
backing store. -/
structure SrvState where
  bs : Nat
  d : Disk

/-- Effect of dispatching one request in the `do_comm` loop: INFO and
unknown codes only send responses; READ may grow the buffer; WRITE may
change the file. -/
def do_request (vhd_mode shm_mode ro : Bool) (c : VhdCfg) (image_offset : Nat)
    (st : SrvState) : Request → SrvState
  | .info => st
  | .read roff rlen =>
    { st with bs := (read_data vhd_mode shm_mode c st.d image_offset st.bs roff rlen).bs }
  | .write woff wlen data =>
    { st with d := (write_data vhd_mode ro c st.d image_offset st.bs woff wlen data).d }
  | .other _ => st

/-- The request loop over a whole session. -/
def do_comm (vhd_mode shm_mode ro : Bool) (c : VhdCfg) (image_offset : Nat)
    (st : SrvState) (rs : List Request) : SrvState :=
  rs.foldl (do_request vhd_mode shm_mode ro c image_offset) st

/-- Number of BAT entries covering the logical device. -/
def nblocks (c : VhdCfg) : Nat := (c.current_size + block_size c - 1) / block_size c

/-- First byte past the Block Allocation Table. -/
def tableEnd (c : VhdCfg) : Nat := c.table_offset + 4 * nblocks c

/-- Number of BAT entries still holding the sparse marker. -/
def sparseCount (c : VhdCfg) (d : Disk) : Nat :=
  ((Finset.range (nblocks c)).filter fun b => batSparse d (c.table_offset + 4 * b) = true).card

/-- Static well-formedness of the VHD geometry: the block size is at
least one sector (the VHD format requires it) and the saved footer is
byte-valued. -/
def CfgOk (c : VhdCfg) : Prop :=
  9 ≤ c.block_shift ∧ ∀ i < 512, c.footer i < 256

/-- Well-formedness of a dynamic VHD image file, preserved by every
`vhd_write`: bytes are byte-valued, the file is sector-aligned, the BAT
sits strictly below the trailing 512-byte footer, the footer region
holds the saved footer verbatim, every allocated BAT entry points to a
`sector + block` region lying between the table and the footer, and the
file cannot grow past the 2^32-sector limit of a 32-bit BAT entry even
if every remaining sparse block is allocated. -/
def Inv (c : VhdCfg) (d : Disk) : Prop :=
  (∀ a < d.size, d.data a < 256) ∧
  512 ∣ d.size ∧
  tableEnd c + 512 ≤ d.size ∧
  (∀ i < 512, d.data (d.size - 512 + i) = c.footer i) ∧
  (∀ b < nblocks c, batSparse d (c.table_offset + 4 * b) = false →
     tableEnd c ≤ batValue d (c.table_offset + 4 * b) * 512 ∧
     batValue d (c.table_offset + 4 * b) * 512 + 512 + block_size c ≤ d.size - 512) ∧
  d.size + sparseCount c d * (512 + block_size c) ≤ 2 ^ 32 * 512

/-- Well-formedness needed by the read path: the whole BAT (one spare
entry included, reachable by a 0-byte read at the device's very end) is
inside the file, and every allocated entry's sector-plus-block region
is inside the file, so BAT loads and block data reads transfer in
full. -/
def ReadWellFormed (c : VhdCfg) (d : Disk) : Prop :=
  c.table_offset + 4 * nblocks c + 4 ≤ d.size ∧
  ∀ b ≤ nblocks c, batSparse d (c.table_offset + 4 * b) = false →
    batValue d (c.table_offset + 4 * b) * 512 + 512 + block_size c ≤ d.size

/-! ### General lemmas about the embedding -/

/-- The buffer size `read_data` leaves behind: grown through
`buf_realloc` exactly when the request exceeds the current size. -/
theorem readout_ite_length (p : Prop) [Decidable p] (len : Nat) (pl : List Nat) (b : Nat)
    (h : (if p then (⟨E2BIG, 0, [], b⟩ : ReadOut) else ⟨0, len, pl, b⟩).errorno = 0) :
    (if p then (⟨E2BIG, 0, [], b⟩ : ReadOut) else ⟨0, len, pl, b⟩).length = len := by
  split at h
  · simp [E2BIG] at h
  · next hp => rw [if_neg hp]

theorem read_data_bs (vhd_mode shm_mode : Bool) (c : VhdCfg) (d : Disk)
    (image_offset bs roff rlen : Nat) :
    (read_data vhd_mode shm_mode c d image_offset bs roff rlen).bs =
      if rlen > bs then buf_realloc shm_mode bs rlen else bs := by
  simp only [read_data, apply_ite ReadOut.bs, ite_self]

/-- Dispatching one request never shrinks the buffer and never grows it
past the address-space clamp. -/
theorem do_request_bs_mono (vhd_mode shm_mode ro : Bool) (c : VhdCfg) (image_offset : Nat)
    (st : SrvState) (r : Request) (hb : st.bs ≤ maxBuf) :
    st.bs ≤ (do_request vhd_mode shm_mode ro c image_offset st r).bs ∧
      (do_request vhd_mode shm_mode ro c image_offset st r).bs ≤ maxBuf := by
  cases r with
  | info => exact ⟨le_refl _, hb⟩
  | read roff rlen =>
    simp only [do_request, read_data_bs, buf_realloc]
    split
    · split
      · exact ⟨le_refl _, hb⟩
      · constructor <;> [omega; exact min_le_right _ _]
    · exact ⟨le_refl _, hb⟩
  | write woff wlen data => exact ⟨le_refl _, hb⟩
  | other n => exact ⟨le_refl _, hb⟩

/-- The session-level buffer invariant, by induction over the request
list. -/
theorem do_comm_bs_mono_aux (vhd_mode shm_mode ro : Bool) (c : VhdCfg) (image_offset : Nat)
    (rs : List Request) (st : SrvState) (hb : st.bs ≤ maxBuf) :
    st.bs ≤ (do_comm vhd_mode shm_mode ro c image_offset st rs).bs ∧
      (do_comm vhd_mode shm_mode ro c image_offset st rs).bs ≤ maxBuf := by
  induction rs generalizing st with
  | nil => exact ⟨le_refl _, hb⟩
  | cons r rs ih =>
    have h1 := do_request_bs_mono vhd_mode shm_mode ro c image_offset st r hb
    have h2 := ih (do_request vhd_mode shm_mode ro c image_offset st r) h1.2
    exact ⟨le_trans h1.1 h2.1, h2.2⟩

/-- A pread wholly inside the file transfers in full. -/
theorem preadLen_full (d : Disk) (n off : Nat) (h : off + n ≤ d.size) : preadLen d n off = n := by
  unfold preadLen; omega

/-- The block number of any offset on the device is at most the entry
count of the BAT. -/
theorem bn_le_nblocks (c : VhdCfg) (offset : Nat) (h : offset ≤ c.current_size) :
    offset >>> c.block_shift ≤ nblocks c := by
  rw [Nat.shiftRight_eq_div_pow]
  show offset / block_size c ≤ _
  calc offset / block_size c ≤ c.current_size / block_size c := Nat.div_le_div_right h
    _ ≤ nblocks c := by
        unfold nblocks
        exact Nat.div_le_div_right (by have := Nat.two_pow_pos c.block_shift; unfold block_size; omega)

/-- The block number of an offset strictly inside the device is a
valid BAT index. -/
theorem bn_lt_nblocks (c : VhdCfg) (offset : Nat) (h : offset < c.current_size) :
    offset >>> c.block_shift < nblocks c := by
  rw [Nat.shiftRight_eq_div_pow]
  show offset / block_size c < nblocks c
  have hbs : 0 < block_size c := Nat.two_pow_pos _
  have h1 : offset / block_size c ≤ (c.current_size - 1) / block_size c :=
    Nat.div_le_div_right (by omega)
  have h2 : c.current_size + block_size c - 1 = (c.current_size - 1) + block_size c := by omega
  unfold nblocks
  rw [h2, Nat.add_div_right _ hbs]
  omega

/-- Core agreement between the source read path and the reference read
algorithm: for offsets inside the device on a well-formed image, the
return value and the final buffer contents coincide, for any two input
buffers of the same length (the source zeroes the whole buffer first,
the reference overwrites all of it, so the input content is
irrelevant). -/
theorem vhd_read_go_agree (c : VhdCfg) (d : Disk) (hwf : ReadWellFormed c d) :
    ∀ fuel (io1 io2 : List Nat) (offset : Nat), io1.length = io2.length →
      io1.length < fuel → offset + io1.length ≤ c.current_size →
      (vhd_read_go c d fuel io1 offset).res = (vhd_read_spec_go c d fuel io2 offset).res ∧
      (vhd_read_go c d fuel io1 offset).buf = (vhd_read_spec_go c d fuel io2 offset).buf := by
  intro fuel
  induction fuel with
  | zero => intro io1 io2 offset _ hf _; exact absurd hf (by omega)
  | succ fuel ih =>
    intro io1 io2 offset hlen hfuel hclip
    have hbs : 0 < block_size c := Nat.two_pow_pos _
    have hinb : offset &&& (block_size c - 1) = offset % block_size c := by
      have h := Nat.and_pow_two_sub_one_eq_mod offset c.block_shift
      simp only [block_size]
      exact h
    have hinblt : offset &&& (block_size c - 1) < block_size c := by
      rw [hinb]; exact Nat.mod_lt _ hbs
    have hbn : offset >>> c.block_shift ≤ nblocks c := bn_le_nblocks c offset (by omega)
    have h4 : (offset >>> c.block_shift) <<< 2 = 4 * (offset >>> c.block_shift) := by
      rw [Nat.shiftLeft_eq]; ring
    have hwf1 := hwf.1
    have hbat : preadLen d 4 (c.table_offset + ((offset >>> c.block_shift) <<< 2)) = 4 :=
      preadLen_full _ _ _ (by omega)
    have hc1 : ¬ offset + io1.length > c.current_size := by omega
    have hb1 : ¬ preadLen d 4 (c.table_offset + ((offset >>> c.block_shift) <<< 2)) ≠ 4 := by
      simp [hbat]
    have hfsle : (if io1.length + (offset &&& (block_size c - 1)) > block_size c
        then block_size c - (offset &&& (block_size c - 1)) else io1.length) ≤ io1.length := by
      split <;> omega
    have hfsinb : (offset &&& (block_size c - 1)) +
        (if io1.length + (offset &&& (block_size c - 1)) > block_size c
          then block_size c - (offset &&& (block_size c - 1)) else io1.length) ≤ block_size c := by
      split <;> omega
    have hfs1 : io1.length - (if io1.length + (offset &&& (block_size c - 1)) > block_size c
        then block_size c - (offset &&& (block_size c - 1)) else io1.length) > 0 →
        1 ≤ (if io1.length + (offset &&& (block_size c - 1)) > block_size c
          then block_size c - (offset &&& (block_size c - 1)) else io1.length) := by
      split <;> omega
    simp only [vhd_read_go, vhd_read_spec_go]
    rw [← hlen]
    simp only [if_neg hc1, if_neg hb1]
    generalize hfsv : (if io1.length + (offset &&& (block_size c - 1)) > block_size c
        then block_size c - (offset &&& (block_size c - 1)) else io1.length) = fs
    rw [hfsv] at hfsle hfsinb hfs1
    by_cases hsp : batSparse d (c.table_offset + ((offset >>> c.block_shift) <<< 2)) = true
    · simp only [if_pos hsp]
      have hfp : (List.replicate io1.length (0 : Nat)).take fs = List.replicate fs 0 := by
        rw [List.take_replicate, min_eq_left hfsle]
      rw [hfp]
      by_cases hs2 : io1.length - fs > 0
      · simp only [if_pos hs2]
        obtain ⟨hr, hb⟩ := ih ((List.replicate io1.length (0 : Nat)).drop fs) (io2.drop fs)
          (offset + fs) (by simp [hlen]) (by simp; omega) (by simp; omega)
        rw [hr, hb]
        constructor <;> split <;> rfl
      · simp only [if_neg hs2]
        exact ⟨trivial, trivial⟩
    · have hspf : batSparse d (c.table_offset + ((offset >>> c.block_shift) <<< 2)) = false := by
        rw [Bool.not_eq_true] at hsp; exact hsp
      simp only [if_neg hsp]
      have hv : batValue d (c.table_offset + ((offset >>> c.block_shift) <<< 2)) * 512 + 512 +
          block_size c ≤ d.size := by
        have h5 : batSparse d (c.table_offset + 4 * (offset >>> c.block_shift)) = false := by
          rw [← h4]; exact hspf
        have h6 := hwf.2 (offset >>> c.block_shift) hbn h5
        rw [← h4] at h6
        exact h6
      have hfull : preadLen d fs
          ((batValue d (c.table_offset + ((offset >>> c.block_shift) <<< 2)) <<< sector_shift) +
            sector_size + (offset &&& (block_size c - 1))) = fs := by
        apply preadLen_full
        have h9 : batValue d (c.table_offset + ((offset >>> c.block_shift) <<< 2)) <<< sector_shift =
            batValue d (c.table_offset + ((offset >>> c.block_shift) <<< 2)) * 512 := by
          rw [Nat.shiftLeft_eq]; norm_num [sector_shift]
        have hss : sector_size = 512 := rfl
        rw [h9, hss]
        omega
      rw [hfull]
      have hdrop1 : ((List.replicate io1.length (0 : Nat)).take fs).drop fs = ([] : List Nat) :=
        List.drop_eq_nil_of_le (by rw [List.length_take]; exact min_le_left _ _)
      have hdrop2 : (io2.take fs).drop fs = ([] : List Nat) :=
        List.drop_eq_nil_of_le (by rw [List.length_take]; exact min_le_left _ _)
      simp only [hdrop1, hdrop2, List.append_nil]
      by_cases hs2 : io1.length - fs > 0
      · simp only [if_pos hs2]
        obtain ⟨hr, hb⟩ := ih ((List.replicate io1.length (0 : Nat)).drop fs) (io2.drop fs)
          (offset + fs) (by simp [hlen]) (by simp; omega) (by simp; omega)
        rw [hr, hb]
        constructor <;> split <;> rfl
      · simp only [if_neg hs2]
        exact ⟨trivial, trivial⟩

/-- Size of the file after a write. -/
theorem pwrite_size (d : Disk) (src : Nat → Nat) (n off : Nat) :
    (pwrite d src n off).size = if n = 0 then d.size else max d.size (off + n) := by
  unfold pwrite; split <;> rfl

/-- A byte outside the written region is unchanged. -/
theorem pwrite_data_out (d : Disk) (src : Nat → Nat) (n off a : Nat)
    (h : a < off ∨ off + n ≤ a) : (pwrite d src n off).data a = d.data a := by
  unfold pwrite
  split
  · rfl
  · show (if off ≤ a ∧ a < off + n then src (a - off) else d.data a) = d.data a
    rw [if_neg (by omega)]

/-- A byte inside the written region comes from the source. -/
theorem pwrite_data_in (d : Disk) (src : Nat → Nat) (n off a : Nat)
    (h1 : off ≤ a) (h2 : a < off + n) : (pwrite d src n off).data a = src (a - off) := by
  unfold pwrite
  split
  · omega
  · show (if off ≤ a ∧ a < off + n then src (a - off) else d.data a) = src (a - off)
    rw [if_pos ⟨h1, h2⟩]

/-- The sparse test only looks at the four entry bytes. -/
theorem batSparse_congr (d1 d2 : Disk) (off : Nat)
    (h : ∀ t < 4, d1.data (off + t) = d2.data (off + t)) :
    batSparse d1 off = batSparse d2 off := by
  have h0 := h 0 (by omega)
  have h1 := h 1 (by omega)
  have h2 := h 2 (by omega)
  have h3 := h 3 (by omega)
  rw [Nat.add_zero] at h0
  unfold batSparse
  rw [h0, h1, h2, h3]

/-- The entry value only looks at the four entry bytes. -/
theorem batValue_congr (d1 d2 : Disk) (off : Nat)
    (h : ∀ t < 4, d1.data (off + t) = d2.data (off + t)) :
    batValue d1 off = batValue d2 off := by
  have h0 := h 0 (by omega)
  have h1 := h 1 (by omega)
  have h2 := h 2 (by omega)
  have h3 := h 3 (by omega)
  rw [Nat.add_zero] at h0
  unfold batValue
  rw [h0, h1, h2, h3]

/-- Parsing back the four big-endian bytes of a 32-bit value gives the
value. -/
theorem batValue_be32 (d : Disk) (off v : Nat) (hv : v < 2 ^ 32)
    (h : ∀ t < 4, d.data (off + t) = be32Bytes v t) : batValue d off = v := by
  have h0 := h 0 (by omega)
  have h1 := h 1 (by omega)
  have h2 := h 2 (by omega)
  have h3 := h 3 (by omega)
  rw [Nat.add_zero] at h0
  unfold batValue
  rw [h0, h1, h2, h3]
  unfold be32Bytes
  have e0 : v >>> ((3 - 0) * 8) = v / 2 ^ 24 := by rw [Nat.shiftRight_eq_div_pow]
  have e1 : v >>> ((3 - 1) * 8) = v / 2 ^ 16 := by rw [Nat.shiftRight_eq_div_pow]
  have e2 : v >>> ((3 - 2) * 8) = v / 2 ^ 8 := by rw [Nat.shiftRight_eq_div_pow]
  have e3 : v >>> ((3 - 3) * 8) = v := by rw [Nat.shiftRight_eq_div_pow]; norm_num
  rw [e0, e1, e2, e3]
  omega

/-- A sparse entry parses to the all-ones 32-bit value. -/
theorem batValue_of_sparse (d : Disk) (off : Nat) (h : batSparse d off = true) :
    batValue d off = 2 ^ 32 - 1 := by
  unfold batSparse at h
  simp only [Bool.and_eq_true, beq_iff_eq] at h
  unfold batValue
  rw [h.1.1.1, h.1.1.2, h.1.2, h.2]
  norm_num

/-- An entry that does not parse to all-ones is not sparse. -/
theorem batSparse_false_of_ne (d : Disk) (off : Nat) (h : batValue d off ≠ 2 ^ 32 - 1) :
    batSparse d off = false := by
  cases hs : batSparse d off with
  | false => rfl
  | true => exact absurd (batValue_of_sparse d off hs) h

/-- A write confined to the region between the table and the footer
preserves the image invariant and the file size. -/
theorem inv_write_inside (c : VhdCfg) (d : Disk) (src : Nat → Nat) (n off : Nat)
    (hInv : Inv c d) (hsrc : ∀ j < n, src j < 256)
    (hlo : tableEnd c ≤ off) (hhi : off + n ≤ d.size - 512) :
    Inv c (pwrite d src n off) ∧ (pwrite d src n off).size = d.size := by
  obtain ⟨hbyte, hdvd, htab, hfoot, hent, hbound⟩ := hInv
  have hsz : (pwrite d src n off).size = d.size := by
    rw [pwrite_size]
    split
    · rfl
    · omega
  have hout : ∀ a, off + n ≤ a ∨ a < off → (pwrite d src n off).data a = d.data a := by
    intro a ha
    exact pwrite_data_out d src n off a (by omega)
  have hentbytes : ∀ b2 < nblocks c, ∀ t < 4,
      (pwrite d src n off).data (c.table_offset + 4 * b2 + t) =
        d.data (c.table_offset + 4 * b2 + t) := by
    intro b2 hb2 t ht
    apply hout
    right
    have : c.table_offset + 4 * b2 + t < tableEnd c := by
      unfold tableEnd
      omega
    omega
  have hsparse_eq : ∀ b2 < nblocks c,
      batSparse (pwrite d src n off) (c.table_offset + 4 * b2) =
        batSparse d (c.table_offset + 4 * b2) := by
    intro b2 hb2
    exact batSparse_congr _ _ _ (hentbytes b2 hb2)
  have hvalue_eq : ∀ b2 < nblocks c,
      batValue (pwrite d src n off) (c.table_offset + 4 * b2) =
        batValue d (c.table_offset + 4 * b2) := by
    intro b2 hb2
    exact batValue_congr _ _ _ (hentbytes b2 hb2)
  have hcount : sparseCount c (pwrite d src n off) = sparseCount c d := by
    unfold sparseCount
    congr 1
    apply Finset.filter_congr
    intro x hx
    rw [hsparse_eq x (Finset.mem_range.mp hx)]
  refine ⟨⟨?_, ?_, ?_, ?_, ?_, ?_⟩, hsz⟩
  · intro a ha
    rw [hsz] at ha
    by_cases hin : off ≤ a ∧ a < off + n
    · rw [pwrite_data_in d src n off a hin.1 hin.2]
      exact hsrc _ (by omega)
    · rw [pwrite_data_out d src n off a (by omega)]
      exact hbyte a ha
  · rw [hsz]; exact hdvd
  · rw [hsz]; exact htab
  · intro i hi
    rw [hsz, hout _ (by omega)]
    exact hfoot i hi
  · intro b2 hb2 hbs2
    rw [hsparse_eq b2 hb2] at hbs2
    rw [hvalue_eq b2 hb2, hsz]
    exact hent b2 hb2 hbs2
  · rw [hsz, hcount]
    exact hbound


/-- A write against an exhausted schedule transfers in full. -/
theorem physical_write_nil (d : Disk) (e : Nat) (src : Nat → Nat) (n off : Nat) :
    physical_write ⟨d, [], e⟩ src n off = ((n : Int), ⟨pwrite d src n off, [], e⟩) := rfl

/-- Allocating a block on a well-formed image with fully-transferring
writes: the BAT entry of the sparse block `b` receives the sector index
of the old footer position, the block-plus-footer write grows the file
by `sector + block` bytes, and the invariant is preserved. -/
theorem vhd_alloc_block_inv (c : VhdCfg) (hc : CfgOk c) (d0 : Disk) (e0 : Nat) (b : Nat)
    (hInv : Inv c d0) (hb : b < nblocks c)
    (hsp : batSparse d0 (c.table_offset + 4 * b) = true) :
    ∃ d2 : Disk,
      vhd_alloc_block c ⟨d0, [], e0⟩ (c.table_offset + 4 * b) =
        Sum.inr ((d0.size - 512) / 512, ⟨d2, [], e0⟩) ∧
      Inv c d2 ∧
      d2.size = d0.size + 512 + block_size c ∧
      batValue d2 (c.table_offset + 4 * b) = (d0.size - 512) / 512 ∧
      batSparse d2 (c.table_offset + 4 * b) = false := by
  obtain ⟨hbyte, hdvd, htab, hfoot, hent, hbound⟩ := hInv
  have hbs : 0 < block_size c := Nat.two_pow_pos _
  have hbs512 : 512 ≤ block_size c := by
    have h := Nat.pow_le_pow_right (by norm_num : 1 ≤ 2) hc.1
    have h9 : (2 : Nat) ^ 9 = 512 := by norm_num
    unfold block_size
    omega
  have hdvdbs : (512 : Nat) ∣ block_size c := by
    have h := pow_dvd_pow 2 hc.1
    have h9 : (2 : Nat) ^ 9 = 512 := by norm_num
    unfold block_size
    rw [← h9]
    exact h
  have hmem : b ∈ (Finset.range (nblocks c)).filter
      (fun b2 => batSparse d0 (c.table_offset + 4 * b2) = true) := by
    rw [Finset.mem_filter, Finset.mem_range]
    exact ⟨hb, hsp⟩
  have hsc1 : 1 ≤ sparseCount c d0 := by
    unfold sparseCount
    exact Finset.card_pos.mpr ⟨b, hmem⟩
  have hsc2 : 512 + block_size c ≤ sparseCount c d0 * (512 + block_size c) := by
    calc 512 + block_size c = 1 * (512 + block_size c) := by ring
      _ ≤ _ := Nat.mul_le_mul_right _ hsc1
  have hlit : (2 : Nat) ^ 32 * 512 = 2199023255552 := by norm_num
  rw [hlit] at hbound
  have hv32 : (d0.size - 512) / 512 < 2 ^ 32 - 2 := by
    have h32 : (2 : Nat) ^ 32 - 2 = 4294967294 := by norm_num
    omega
  have htabe : tableEnd c = c.table_offset + 4 * nblocks c := rfl
  have hdoffle : c.table_offset + 4 * b + 4 ≤ tableEnd c := by
    rw [htabe]; omega
  have hvval : ((d0.size - 512) >>> sector_shift) % 2 ^ 32 = (d0.size - 512) / 512 := by
    rw [Nat.shiftRight_eq_div_pow]
    have h9 : (2 : Nat) ^ sector_shift = 512 := by norm_num [sector_shift]
    rw [h9]
    exact Nat.mod_eq_of_lt (by omega)
  have hfsdvd : (512 : Nat) ∣ d0.size - 512 := Nat.dvd_sub' hdvd (by norm_num)
  have hfsmul : (d0.size - 512) / 512 * 512 = d0.size - 512 := Nat.div_mul_cancel hfsdvd
  -- reduce the allocation body
  simp only [vhd_alloc_block, physical_write_nil, sector_size, hvval]
  rw [if_neg (by norm_num), if_neg (by simp)]
  set doff := c.table_offset + 4 * b with hdoff
  set v := (d0.size - 512) / 512 with hvdef
  set fs := d0.size - 512 with hfsdef
  set d1 : Disk := pwrite d0 (be32Bytes v) 4 doff with hd1
  set bigsrc : Nat → Nat := fun j =>
    if j < 512 + block_size c then 0
    else c.footer (j - (512 + block_size c)) with hbig
  set blocklen := 512 + block_size c + 512 with hbl
  set d2 : Disk := pwrite d1 bigsrc blocklen fs with hd2
  have hd1size : d1.size = d0.size := by
    rw [hd1, pwrite_size, if_neg (by norm_num)]
    omega
  have hblpos : blocklen ≠ 0 := by rw [hbl]; omega
  have hd2size : d2.size = d0.size + 512 + block_size c := by
    rw [hd2, pwrite_size, if_neg hblpos, hd1size, hbl]
    omega
  have htabfs : tableEnd c ≤ fs := by omega
  -- entry b bytes of d2 are the stored big-endian value
  have hentb : ∀ t < 4, d2.data (doff + t) = be32Bytes v t := by
    intro t ht
    rw [hd2, pwrite_data_out d1 bigsrc blocklen fs (doff + t) (Or.inl (by omega))]
    rw [hd1, pwrite_data_in d0 (be32Bytes v) 4 doff (doff + t) (by omega) (by omega)]
    have harg : doff + t - doff = t := by omega
    rw [harg]
  have hvlt : v < 2 ^ 32 := by omega
  have hvalb : batValue d2 doff = v := batValue_be32 d2 doff v hvlt hentb
  have hsparseb : batSparse d2 doff = false := by
    apply batSparse_false_of_ne
    rw [hvalb]
    have h32 : (2 : Nat) ^ 32 - 1 = 4294967295 := by norm_num
    have h32b : (2 : Nat) ^ 32 - 2 = 4294967294 := by norm_num
    omega
  -- other entries keep their bytes
  have hother : ∀ b2 < nblocks c, b2 ≠ b → ∀ t < 4,
      d2.data (c.table_offset + 4 * b2 + t) = d0.data (c.table_offset + 4 * b2 + t) := by
    intro b2 hb2 hne t ht
    have hpos : c.table_offset + 4 * b2 + t < tableEnd c := by rw [htabe]; omega
    rw [hd2, pwrite_data_out d1 bigsrc blocklen fs (c.table_offset + 4 * b2 + t)
      (Or.inl (by omega))]
    rw [hd1, pwrite_data_out d0 (be32Bytes v) 4 doff (c.table_offset + 4 * b2 + t)
      (by rw [hdoff]; omega)]
  have hsparse_other : ∀ b2 < nblocks c, b2 ≠ b →
      batSparse d2 (c.table_offset + 4 * b2) = batSparse d0 (c.table_offset + 4 * b2) := by
    intro b2 hb2 hne
    exact batSparse_congr _ _ _ (hother b2 hb2 hne)
  have hvalue_other : ∀ b2 < nblocks c, b2 ≠ b →
      batValue d2 (c.table_offset + 4 * b2) = batValue d0 (c.table_offset + 4 * b2) := by
    intro b2 hb2 hne
    exact batValue_congr _ _ _ (hother b2 hb2 hne)
  have hset : (Finset.range (nblocks c)).filter
        (fun b2 => batSparse d2 (c.table_offset + 4 * b2) = true) =
      ((Finset.range (nblocks c)).filter
        (fun b2 => batSparse d0 (c.table_offset + 4 * b2) = true)).erase b := by
    ext x
    simp only [Finset.mem_erase, Finset.mem_filter, Finset.mem_range]
    constructor
    · intro hx
      have hxb : x ≠ b := by
        intro he
        subst he
        rw [hdoff] at hsparseb
        rw [hsparseb] at hx
        exact absurd hx.2 (by simp)
      exact ⟨hxb, hx.1, by rw [← hsparse_other x hx.1 hxb]; exact hx.2⟩
    · intro hx
      exact ⟨hx.2.1, by rw [hsparse_other x hx.2.1 hx.1]; exact hx.2.2⟩
  have hcount : sparseCount c d2 = sparseCount c d0 - 1 := by
    unfold sparseCount
    rw [hset, Finset.card_erase_of_mem hmem]
  refine ⟨d2, rfl, ⟨?_, ?_, ?_, ?_, ?_, ?_⟩, hd2size, hvalb, hsparseb⟩
  · -- bytes stay byte-valued
    intro a ha
    rw [hd2size] at ha
    by_cases hin2 : fs ≤ a ∧ a < fs + blocklen
    · rw [hd2, pwrite_data_in d1 bigsrc blocklen fs a hin2.1 hin2.2]
      simp only [hbig]
      split
      · norm_num
      · exact hc.2 _ (by rw [hbl] at hin2; omega)
    · rw [hd2, pwrite_data_out d1 bigsrc blocklen fs a (by omega)]
      by_cases hin1 : doff ≤ a ∧ a < doff + 4
      · rw [hd1, pwrite_data_in d0 (be32Bytes v) 4 doff a hin1.1 hin1.2]
        unfold be32Bytes
        exact Nat.mod_lt _ (by norm_num)
      · rw [hd1, pwrite_data_out d0 (be32Bytes v) 4 doff a (by omega)]
        apply hbyte
        rw [hbl] at hin2
        omega
  · rw [hd2size]
    exact Nat.dvd_add (Nat.dvd_add hdvd (by norm_num)) hdvdbs
  · rw [hd2size]
    omega
  · -- the footer sits at the new end of file
    intro i hi
    rw [hd2size]
    have hpos1 : fs ≤ d0.size + 512 + block_size c - 512 + i := by omega
    have hpos2 : d0.size + 512 + block_size c - 512 + i < fs + blocklen := by
      rw [hbl]; omega
    rw [hd2, pwrite_data_in d1 bigsrc blocklen fs (d0.size + 512 + block_size c - 512 + i)
      hpos1 hpos2]
    simp only [hbig]
    rw [if_neg (by omega)]
    have harg : d0.size + 512 + block_size c - 512 + i - fs - (512 + block_size c) = i := by
      omega
    rw [harg]
  · -- every allocated entry stays inside the data area
    intro b2 hb2 hbs2
    by_cases hne : b2 = b
    · subst hne
      rw [← hdoff, hvalb, hfsmul]
      constructor
      · omega
      · rw [hd2size]; omega
    · rw [hvalue_other b2 hb2 hne]
      rw [hsparse_other b2 hb2 hne] at hbs2
      have h := hent b2 hb2 hbs2
      rw [hd2size]
      omega
  · rw [hd2size, hcount, hlit]
    have h1 : (sparseCount c d0 - 1) * (512 + block_size c) + (512 + block_size c) =
        sparseCount c d0 * (512 + block_size c) := by
      have h2 : sparseCount c d0 - 1 + 1 = sparseCount c d0 := by omega
      calc (sparseCount c d0 - 1) * (512 + block_size c) + (512 + block_size c)
          = (sparseCount c d0 - 1 + 1) * (512 + block_size c) := by ring
        _ = _ := by rw [h2]
    omega


/-- A zero-length head part leaves the file untouched: both the data
write and the bitmap update degenerate to 0-byte transfers. -/
theorem vhd_write_data_bitmap_zero (d0 : Disk) (e0 : Nat) (v inb : Nat) (io : List Nat) :
    vhd_write_data_bitmap ⟨d0, [], e0⟩ v inb 0 io = Sum.inr (0, ⟨d0, [], e0⟩) := rfl

/-- The data write and bitmap update of a head part aimed at an
allocated block inside the data area succeed with fully-transferring
writes and preserve the invariant. -/
theorem vhd_write_data_bitmap_inv (c : VhdCfg) (d0 : Disk) (e0 : Nat)
    (v inb fsz : Nat) (io : List Nat)
    (hInv : Inv c d0) (hio : ∀ x ∈ io, x < 256)
    (hlo : tableEnd c ≤ v * 512)
    (hhi : v * 512 + 512 + block_size c ≤ d0.size - 512)
    (hfs : inb + fsz ≤ block_size c) :
    ∃ d2 : Disk,
      vhd_write_data_bitmap ⟨d0, [], e0⟩ v inb fsz io = Sum.inr ((fsz : Int), ⟨d2, [], e0⟩) ∧
      Inv c d2 ∧ d2.size = d0.size := by
  have hsh : v <<< sector_shift = v * 512 := by
    rw [Nat.shiftLeft_eq]; norm_num [sector_shift]
  have e1 : inb >>> sector_shift >>> 3 = inb / 512 / 8 := by
    rw [Nat.shiftRight_eq_div_pow, Nat.shiftRight_eq_div_pow]; norm_num [sector_shift]
  have e2 : (fsz + sector_size - 1) >>> sector_shift = (fsz + 511) / 512 := by
    rw [Nat.shiftRight_eq_div_pow]; norm_num [sector_shift, sector_size]
  have e3 : ((fsz + 511) / 512 + 7) >>> 3 = ((fsz + 511) / 512 + 7) / 8 := by
    rw [Nat.shiftRight_eq_div_pow]
  have hsrc1 : ∀ j < fsz, (fun j => io.getD j 0) j < 256 := by
    intro j _
    show io.getD j 0 < 256
    by_cases hj : j < io.length
    · rw [List.getD_eq_getElem io 0 hj]
      exact hio _ (List.getElem_mem hj)
    · rw [List.getD_eq_default io 0 (by omega)]
      norm_num
  obtain ⟨hInv1, hsz1⟩ := inv_write_inside c d0 (fun j => io.getD j 0) fsz
    (v * 512 + sector_size + inb) hInv hsrc1 (by unfold sector_size; omega)
    (by unfold sector_size; omega)
  set da := pwrite d0 (fun j => io.getD j 0) fsz (v * 512 + sector_size + inb) with hda
  obtain ⟨hInv2, hsz2⟩ := inv_write_inside c da (fun _ => 255) (((fsz + 511) / 512 + 7) / 8)
    (v * 512 + inb / 512 / 8) hInv1 (by intro j _; norm_num)
    (by omega) (by rw [hsz1]; omega)
  refine ⟨_, ?_, hInv2, by rw [hsz2, hsz1]⟩
  simp only [vhd_write_data_bitmap, physical_write_nil, hsh, e1, e2, e3]
  rw [if_neg (by omega), if_neg (by simp)]


/-- Invariant preservation for the whole write path: with a reliable
backing store (every physical write transfers fully) a `vhd_write`
against a well-formed image with byte-valued data leaves a well-formed
image, and the schedule stays exhausted. -/
theorem vhd_write_go_inv (c : VhdCfg) (hc : CfgOk c) :
    ∀ fuel (d0 : Disk) (e0 : Nat) (io : List Nat) (offset : Nat),
      Inv c d0 → (∀ x ∈ io, x < 256) → io.length < fuel →
      Inv c (vhd_write_go c fuel ⟨d0, [], e0⟩ io offset).2.d ∧
      (vhd_write_go c fuel ⟨d0, [], e0⟩ io offset).2.sched = [] := by
  intro fuel
  induction fuel with
  | zero => intro d0 e0 io offset _ _ hf; exact absurd hf (by omega)
  | succ fuel ih =>
    intro d0 e0 io offset hInv hio hfuel
    have hbs : 0 < block_size c := Nat.two_pow_pos _
    by_cases hclip : offset + io.length > c.current_size
    · simp only [vhd_write_go, if_pos hclip]
      exact ⟨hInv, trivial⟩
    · have hinb : offset &&& (block_size c - 1) = offset % block_size c := by
        have h := Nat.and_pow_two_sub_one_eq_mod offset c.block_shift
        simp only [block_size]
        exact h
      have hinblt : offset &&& (block_size c - 1) < block_size c := by
        rw [hinb]; exact Nat.mod_lt _ hbs
      have hbn : offset >>> c.block_shift ≤ nblocks c := bn_le_nblocks c offset (by omega)
      have h4 : (offset >>> c.block_shift) <<< 2 = 4 * (offset >>> c.block_shift) := by
        rw [Nat.shiftLeft_eq]; ring
      have htab2 : c.table_offset + 4 * nblocks c + 512 ≤ d0.size := hInv.2.2.1
      have hbat : preadLen d0 4 (c.table_offset + ((offset >>> c.block_shift) <<< 2)) = 4 := by
        apply preadLen_full
        rw [h4]
        omega
      have hb1 : ¬ preadLen d0 4 (c.table_offset + ((offset >>> c.block_shift) <<< 2)) ≠ 4 := by
        simp [hbat]
      have hfsle : (if io.length + (offset &&& (block_size c - 1)) > block_size c
          then block_size c - (offset &&& (block_size c - 1)) else io.length) ≤ io.length := by
        split <;> omega
      have hfsinb : (offset &&& (block_size c - 1)) +
          (if io.length + (offset &&& (block_size c - 1)) > block_size c
            then block_size c - (offset &&& (block_size c - 1)) else io.length) ≤
          block_size c := by
        split <;> omega
      have hfs1 : io.length - (if io.length + (offset &&& (block_size c - 1)) > block_size c
          then block_size c - (offset &&& (block_size c - 1)) else io.length) > 0 →
          1 ≤ (if io.length + (offset &&& (block_size c - 1)) > block_size c
            then block_size c - (offset &&& (block_size c - 1)) else io.length) := by
        split <;> omega
      simp only [vhd_write_go, if_neg hclip, if_neg hb1]
      generalize hfsv : (if io.length + (offset &&& (block_size c - 1)) > block_size c
          then block_size c - (offset &&& (block_size c - 1)) else io.length) = fs
      rw [hfsv] at hfsle hfsinb hfs1
      by_cases hsp : batSparse d0 (c.table_offset + ((offset >>> c.block_shift) <<< 2)) = true
      · by_cases hfz : fs = 0
        · subst hfz
          rw [if_pos (by simp [hsp])]
          by_cases hs2 : io.length - 0 > 0
          · exact absurd (hfs1 hs2) (by omega)
          · rw [if_neg hs2]
            exact ⟨hInv, rfl⟩
        · have hne7 : (fs + 7) >>> 3 ≠ 0 := by
            have he : (fs + 7) >>> 3 = (fs + 7) / 8 := Nat.shiftRight_eq_div_pow _ _
            omega
          rw [if_neg (by simp [hne7])]
          have hn1 : 1 ≤ io.length := by omega
          have hbnlt : offset >>> c.block_shift < nblocks c :=
            bn_lt_nblocks c offset (by omega)
          rw [h4] at hsp ⊢
          rw [if_pos hsp]
          obtain ⟨d2, haeq, hInv2, hsize2, hval2, hsparse2⟩ :=
            vhd_alloc_block_inv c hc d0 e0 (offset >>> c.block_shift) hInv hbnlt hsp
          rw [haeq]
          simp only [Sum.elim_inr]
          have hreg := hInv2.2.2.2.2.1 (offset >>> c.block_shift) hbnlt hsparse2
          rw [hval2] at hreg
          obtain ⟨d3, hweq, hInv3, hsz3⟩ := vhd_write_data_bitmap_inv c d2 e0
            ((d0.size - 512) / 512) (offset &&& (block_size c - 1)) fs io hInv2 hio
            hreg.1 hreg.2 hfsinb
          rw [hweq]
          simp only [Sum.elim_inr]
          by_cases hs2 : io.length - fs > 0
          · rw [if_pos hs2]
            obtain ⟨ih1, ih2⟩ := ih d3 e0 (io.drop fs) (offset + fs) hInv3
              (fun x hx => hio x (List.mem_of_mem_drop hx))
              (by rw [List.length_drop]; have := hfs1 hs2; omega)
            constructor
            · split <;> exact ih1
            · split <;> exact ih2
          · rw [if_neg hs2]
            exact ⟨hInv3, rfl⟩
      · have hspf : batSparse d0 (c.table_offset + ((offset >>> c.block_shift) <<< 2)) = false := by
          rw [Bool.not_eq_true] at hsp
          exact hsp
        rw [if_neg (by simp [hspf])]
        rw [if_neg hsp]
        simp only [Sum.elim_inr]
        by_cases hn : io.length = 0
        · have hf0 : fs = 0 := by omega
          subst hf0
          rw [vhd_write_data_bitmap_zero]
          simp only [Sum.elim_inr]
          rw [if_neg (by omega)]
          exact ⟨hInv, rfl⟩
        · have hbnlt : offset >>> c.block_shift < nblocks c :=
            bn_lt_nblocks c offset (by omega)
          rw [h4] at hspf ⊢
          have hreg := hInv.2.2.2.2.1 (offset >>> c.block_shift) hbnlt hspf
          obtain ⟨d3, hweq, hInv3, hsz3⟩ := vhd_write_data_bitmap_inv c d0 e0
            (batValue d0 (c.table_offset + 4 * (offset >>> c.block_shift)))
            (offset &&& (block_size c - 1)) fs io hInv hio
            hreg.1 hreg.2 hfsinb
          rw [hweq]
          simp only [Sum.elim_inr]
          by_cases hs2 : io.length - fs > 0
          · rw [if_pos hs2]
            obtain ⟨ih1, ih2⟩ := ih d3 e0 (io.drop fs) (offset + fs) hInv3
              (fun x hx => hio x (List.mem_of_mem_drop hx))
              (by rw [List.length_drop]; have := hfs1 hs2; omega)
            constructor
            · split <;> exact ih1
            · split <;> exact ih2
          · rw [if_neg hs2]
            exact ⟨hInv3, rfl⟩


/-- Evaluation of a physical write against a scheduled outcome. -/
theorem physical_write_cons (d : Disk) (w : WRes) (rest : List WRes) (e : Nat)
    (src : Nat → Nat) (n off : Nat) :
    physical_write ⟨d, w :: rest, e⟩ src n off =
      if w.r < 0 then (-1, ⟨d, rest, w.e⟩)
      else (((min w.r.toNat n : Nat) : Int), ⟨pwrite d src (min w.r.toNat n) off, rest, e⟩) := rfl

/-- A write request that stays inside one block reduces to the BAT
lookup followed by the allocation (if sparse) and the data-plus-bitmap
step, without recursion. -/
theorem vhd_write_single_part (c : VhdCfg) (s : WState) (io : List Nat) (offset : Nat)
    (hsize : 1 ≤ io.length)
    (hclip : offset + io.length ≤ c.current_size)
    (hsplit : io.length + (offset &&& (block_size c - 1)) ≤ block_size c)
    (htab : preadLen s.d 4 (c.table_offset + ((offset >>> c.block_shift) <<< 2)) = 4) :
    vhd_write c s io offset =
      Sum.elim (fun sf => ((-1 : Int), sf))
        (fun vs =>
          Sum.elim (fun sf => ((-1 : Int), sf))
            (fun ws => (ws.1, ws.2))
            (vhd_write_data_bitmap vs.2 vs.1 (offset &&& (block_size c - 1)) io.length io))
        (if batSparse s.d (c.table_offset + ((offset >>> c.block_shift) <<< 2)) = true
         then vhd_alloc_block c s (c.table_offset + ((offset >>> c.block_shift) <<< 2))
         else Sum.inr (batValue s.d (c.table_offset + ((offset >>> c.block_shift) <<< 2)), s)) := by
  have hq : ((io.length + 7) >>> 3 == 0) = false := by
    have he : (io.length + 7) >>> 3 = (io.length + 7) / 8 := Nat.shiftRight_eq_div_pow _ _
    simp only [beq_eq_false_iff_ne, ne_eq]
    omega
  show vhd_write_go c (io.length + 1) s io offset = _
  simp only [vhd_write_go,
    if_neg (by omega : ¬ offset + io.length > c.current_size),
    if_neg (by simp [htab] :
      ¬ preadLen s.d 4 (c.table_offset + ((offset >>> c.block_shift) <<< 2)) ≠ 4),
    if_neg (by omega : ¬ io.length + (offset &&& (block_size c - 1)) > block_size c),
    hq, Bool.and_false, Bool.false_eq_true, if_false,
    if_neg (by omega : ¬ io.length - io.length > 0)]

/-- A data write returning -1 fails the request without writing and
without the errno substitution (devio.c lines 925-927). -/
theorem vhd_write_data_bitmap_data_neg (d0 : Disk) (e1 e2 : Nat) (rest : List WRes)
    (v inb fsz : Nat) (io : List Nat) :
    vhd_write_data_bitmap ⟨d0, ⟨-1, e2⟩ :: rest, e1⟩ v inb fsz io = Sum.inl ⟨d0, rest, e2⟩ := rfl

/-- A failed or short bitmap update fails the request with the errno
substitution; the bytes already written by the data write stay on
disk. -/
theorem vhd_write_data_bitmap_bitmap_err (d0 : Disk) (e0 ea eb : Nat) (rest : List WRes)
    (k : Nat) (r : Int) (v inb fsz : Nat) (io : List Nat) (hk : k ≤ fsz)
    (hr : r < 0 ∨ r.toNat < (((fsz + sector_size - 1) >>> sector_shift) + 7) >>> 3) :
    ∃ df : Disk,
      vhd_write_data_bitmap ⟨d0, ⟨(k : Int), ea⟩ :: ⟨r, eb⟩ :: rest, e0⟩ v inb fsz io =
        Sum.inl ⟨df, rest, errSubst (if r < 0 then eb else e0)⟩ ∧
      (r < 0 → df = pwrite d0 (fun j => io.getD j 0) k
        ((v <<< sector_shift) + sector_size + inb)) := by
  have hminp : min ((k : Int)).toNat fsz = k := by
    rw [Int.toNat_natCast]
    omega
  simp only [vhd_write_data_bitmap, physical_write_cons]
  rw [if_neg (by omega : ¬ ((k : Int) < 0))]
  simp only [Prod.fst, Prod.snd, hminp, physical_write_cons]
  rw [if_neg (by omega : ¬ (((k : Nat) : Int) = -1))]
  by_cases hneg : r < 0
  · simp only [if_pos hneg, Prod.fst, Prod.snd]
    rw [if_pos (ne_of_lt (lt_of_lt_of_le (by norm_num) (Int.natCast_nonneg
      ((((fsz + sector_size - 1) >>> sector_shift) + 7) >>> 3))))]
    exact ⟨_, rfl, fun _ => rfl⟩
  · simp only [if_neg hneg, Prod.fst, Prod.snd]
    have hrn : r.toNat < (((fsz + sector_size - 1) >>> sector_shift) + 7) >>> 3 := by
      rcases hr with h | h
      · exact absurd h hneg
      · exact h
    rw [min_eq_left hrn.le]
    rw [if_pos (ne_of_lt (by exact_mod_cast hrn))]
    exact ⟨_, rfl, fun hcon => absurd hcon hneg⟩

/-- A short but successful data write, with the bitmap update
transferring fully, succeeds and returns only the short count. -/
theorem vhd_write_data_bitmap_data_short (d0 : Disk) (e0 ea : Nat)
    (k v inb fsz : Nat) (io : List Nat) (hk : k ≤ fsz) :
    vhd_write_data_bitmap ⟨d0, [⟨(k : Int), ea⟩], e0⟩ v inb fsz io =
      Sum.inr ((k : Int),
        ⟨pwrite (pwrite d0 (fun j => io.getD j 0) k ((v <<< sector_shift) + sector_size + inb))
          (fun _ => 255) ((((fsz + sector_size - 1) >>> sector_shift) + 7) >>> 3)
          ((v <<< sector_shift) + (inb >>> sector_shift >>> 3)), [], e0⟩) := by
  have hminp : min ((k : Int)).toNat fsz = k := by
    rw [Int.toNat_natCast]
    omega
  simp only [vhd_write_data_bitmap, physical_write_cons]
  rw [if_neg (by omega : ¬ ((k : Int) < 0))]
  simp only [Prod.fst, Prod.snd, hminp, physical_write_nil]
  rw [if_neg (by omega : ¬ (((k : Nat) : Int) = -1))]
  rw [if_neg (fun h => h rfl)]

/-- A failed or short BAT-entry write during allocation fails the
request with the errno substitution; on a -1 the disk is untouched. -/
theorem vhd_alloc_block_bat_err (c : VhdCfg) (d0 : Disk) (e0 eb : Nat) (rest : List WRes)
    (r : Int) (doff : Nat) (hr : r < 0 ∨ r.toNat < 4) :
    ∃ df : Disk,
      vhd_alloc_block c ⟨d0, ⟨r, eb⟩ :: rest, e0⟩ doff =
        Sum.inl ⟨df, rest, errSubst (if r < 0 then eb else e0)⟩ ∧
      (r < 0 → df = d0) := by
  simp only [vhd_alloc_block, physical_write_cons]
  by_cases hneg : r < 0
  · simp only [if_pos hneg, Prod.fst, Prod.snd]
    rw [if_pos (by decide : (-1 : Int) ≠ 4)]
    exact ⟨_, rfl, fun _ => rfl⟩
  · simp only [if_neg hneg, Prod.fst, Prod.snd]
    have hrn : r.toNat < 4 := by
      rcases hr with h | h
      · exact absurd h hneg
      · exact h
    rw [min_eq_left hrn.le]
    rw [if_pos (by exact_mod_cast hrn.ne)]
    exact ⟨_, rfl, fun hcon => absurd hcon hneg⟩

/-- A failed or short block-plus-footer write during allocation fails
the request with the errno substitution; on a -1 the BAT entry has
already been rewritten and is not rolled back. -/
theorem vhd_alloc_block_block_err (c : VhdCfg) (d0 : Disk) (e0 ea eb : Nat) (rest : List WRes)
    (r : Int) (doff : Nat)
    (hr : r < 0 ∨ r.toNat < sector_size + block_size c + sector_size) :
    ∃ df : Disk,
      vhd_alloc_block c ⟨d0, ⟨4, ea⟩ :: ⟨r, eb⟩ :: rest, e0⟩ doff =
        Sum.inl ⟨df, rest, errSubst (if r < 0 then eb else e0)⟩ ∧
      (r < 0 → df =
        pwrite d0 (be32Bytes (((d0.size - sector_size) >>> sector_shift) % 2 ^ 32)) 4 doff) := by
  have h44 : min ((4 : Int)).toNat 4 = 4 := rfl
  simp only [vhd_alloc_block, physical_write_cons]
  rw [if_neg (by decide : ¬ ((4 : Int) < 0))]
  simp only [Prod.fst, Prod.snd, h44, physical_write_cons]
  rw [if_neg (fun h => h (by norm_num))]
  by_cases hneg : r < 0
  · simp only [if_pos hneg, Prod.fst, Prod.snd]
    rw [if_pos (ne_of_lt (lt_of_lt_of_le (by norm_num)
      (Int.natCast_nonneg (sector_size + block_size c + sector_size))))]
    exact ⟨_, rfl, fun _ => rfl⟩
  · simp only [if_neg hneg, Prod.fst, Prod.snd]
    have hrn : r.toNat < sector_size + block_size c + sector_size := by
      rcases hr with h | h
      · exact absurd h hneg
      · exact h
    rw [min_eq_left hrn.le]
    rw [if_pos (by exact_mod_cast hrn.ne)]
    exact ⟨_, rfl, fun hcon => absurd hcon hneg⟩

/-! ### Claim theorems -/

/-- C7: the claim that `GetBigEndian64` returns the plain big-endian
value `sum b[i] * 2^(8*(7-i))` for all byte values, including bytes at
or above 0x80, fails on the source: the bytes pass through `int8_t`, so
a byte of 0x80 in any position after the first sign-extends and ORs
ones over all more significant bits.  For the 8-byte array encoding
CurrentSize = 0x80000000 (a 2 GiB VHD) the source computes the 64-bit
pattern 0xFFFFFFFF80000000 (a negative int64) instead of 2^31. -/
theorem GetBigEndian64_sign_extension_bug :
    GetBigEndian64 (fun i => if i = 4 then 128 else 0) = 2 ^ 64 - 2 ^ 31 ∧
    bigEndian64Spec (fun i => if i = 4 then 128 else 0) = 2 ^ 31 ∧
    GetBigEndian64 (fun i => if i = 4 then 128 else 0) ≠
      bigEndian64Spec (fun i => if i = 4 then 128 else 0) := by
  refine ⟨by decide, by decide, by decide⟩

/-- C1: the no-allocation-for-zeros rule is dead code in the source:
the zero-detection loop's guard short-circuits to false on its first
iteration, so an all-zero write to a sparse block still allocates.
Concretely, on a well-formed one-block VHD (block size 512, sparse BAT
entry, 1024-byte file ending in the footer), writing 8 zero bytes at
offset 0 allocates the block: the file grows from 1024 to 2048 bytes
and the BAT entry stops being the sparse marker, while the claim says
the entry must stay 0xFFFFFFFF and the file must not grow. -/
theorem vhd_write_zero_write_allocates :
    let c : VhdCfg := ⟨9, 0, 512, fun _ => 0⟩
    let d : Disk := ⟨fun n => if n < 4 then 255 else 0, 1024⟩
    batSparse d 0 = true ∧
    (vhd_write c ⟨d, [], 0⟩ (List.replicate 8 0) 0).1 = 8 ∧
    (vhd_write c ⟨d, [], 0⟩ (List.replicate 8 0) 0).2.d.size = 2048 ∧
    batSparse (vhd_write c ⟨d, [], 0⟩ (List.replicate 8 0) 0).2.d 0 = false := by
  refine ⟨by decide, by decide, by decide, by decide⟩

/-- C2 (counterexample): a short logical read is not reported back with
the shorter length.  A non-VHD read of 8 bytes against a 4-byte file
transfers 4 bytes, yet the response carries errorno 0 and length 8 (the
source sets `resp_block.length = size`, the clipped request size, and
only logs the partial read). -/
theorem read_data_short_read_counterexample :
    (read_data false false ⟨9, 0, 512, fun _ => 0⟩ ⟨fun _ => 7, 4⟩ 0 8 0 8).errorno = 0 ∧
    read_transferred false false ⟨9, 0, 512, fun _ => 0⟩ ⟨fun _ => 7, 4⟩ 0 8 0 8 = 4 ∧
    (read_data false false ⟨9, 0, 512, fun _ => 0⟩ ⟨fun _ => 7, 4⟩ 0 8 0 8).length = 8 := by
  refine ⟨by decide, by decide, by decide⟩

/-- C2 (amended): for every READ request answered with errorno = 0 the
response's length equals `min(requested length, buffer_size)` — the
size the server chose to serve — regardless of how many bytes the
logical layer actually transferred; a short transfer is only logged. -/
theorem read_data_length_is_served_size (vhd_mode shm_mode : Bool) (c : VhdCfg) (d : Disk)
    (image_offset bs roff rlen : Nat)
    (h : (read_data vhd_mode shm_mode c d image_offset bs roff rlen).errorno = 0) :
    (read_data vhd_mode shm_mode c d image_offset bs roff rlen).length =
      min rlen (read_data vhd_mode shm_mode c d image_offset bs roff rlen).bs := by
  rw [read_data_bs]
  exact readout_ite_length _ _ _ _ h

/-- Witness for the amended C2 at a concrete input. -/
theorem read_data_length_is_served_size_witness :
    (read_data false false ⟨9, 0, 512, fun _ => 0⟩ ⟨fun _ => 7, 4⟩ 0 8 0 8).errorno = 0 ∧
    (read_data false false ⟨9, 0, 512, fun _ => 0⟩ ⟨fun _ => 7, 4⟩ 0 8 0 8).length =
      min 8 (read_data false false ⟨9, 0, 512, fun _ => 0⟩ ⟨fun _ => 7, 4⟩ 0 8 0 8).bs :=
  ⟨by decide, read_data_length_is_served_size false false _ _ 0 8 0 8 (by decide)⟩

/-- C5: a WRITE while the READ_ONLY flag is set (and whose length fits
the buffer, so that the request is actually processed) is answered with
errorno EBADF and length 0, without touching the backing store. -/
theorem write_data_read_only (vhd_mode : Bool) (c : VhdCfg) (d : Disk)
    (image_offset bs woff wlen : Nat) (data : List Nat) (h : wlen ≤ bs) :
    write_data vhd_mode true c d image_offset bs woff wlen data = ⟨false, EBADF, 0, d⟩ := by
  unfold write_data
  rw [if_neg (by omega : ¬ wlen > bs)]
  rfl

/-- Witness for C5 at a concrete input. -/
theorem write_data_read_only_witness :
    write_data false true ⟨9, 0, 512, fun _ => 0⟩ ⟨fun _ => 7, 4⟩ 0 8 0 4 [1, 2, 3, 4] =
      ⟨false, EBADF, 0, ⟨fun _ => 7, 4⟩⟩ :=
  write_data_read_only false _ _ 0 8 0 4 [1, 2, 3, 4] (by omega)

/-- C8: an oversized READ first grows the buffer (socket path: clamped
to half the address space) and then serves `min(length, buffer_size)`
bytes; an oversized WRITE ends the session without writing any data. -/
theorem oversized_request_handling (vhd_mode ro : Bool) (c : VhdCfg) (d : Disk)
    (image_offset bs roff rlen woff wlen : Nat) (data : List Nat)
    (hr : rlen > bs) (hw : wlen > bs) :
    ((read_data vhd_mode false c d image_offset bs roff rlen).bs = min rlen maxBuf ∧
     ((read_data vhd_mode false c d image_offset bs roff rlen).errorno = 0 →
       (read_data vhd_mode false c d image_offset bs roff rlen).length =
         min rlen (read_data vhd_mode false c d image_offset bs roff rlen).bs)) ∧
    ((write_data vhd_mode ro c d image_offset bs woff wlen data).aborted = true ∧
     (write_data vhd_mode ro c d image_offset bs woff wlen data).d = d) := by
  refine ⟨⟨?_, read_data_length_is_served_size _ _ _ _ _ _ _ _⟩, ?_, ?_⟩
  · rw [read_data_bs, if_pos hr]; rfl
  · unfold write_data; rw [if_pos hw]
  · unfold write_data; rw [if_pos hw]

/-- Witness for C8 at concrete inputs. -/
theorem oversized_request_handling_witness :
    (8 : Nat) > 4 ∧
    ((read_data false false ⟨9, 0, 512, fun _ => 0⟩ ⟨fun _ => 7, 4⟩ 0 4 0 8).bs =
        min 8 maxBuf ∧
     ((read_data false false ⟨9, 0, 512, fun _ => 0⟩ ⟨fun _ => 7, 4⟩ 0 4 0 8).errorno = 0 →
       (read_data false false ⟨9, 0, 512, fun _ => 0⟩ ⟨fun _ => 7, 4⟩ 0 4 0 8).length =
         min 8 (read_data false false ⟨9, 0, 512, fun _ => 0⟩ ⟨fun _ => 7, 4⟩ 0 4 0 8).bs)) ∧
    ((write_data false false ⟨9, 0, 512, fun _ => 0⟩ ⟨fun _ => 7, 4⟩ 0 4 0 8 []).aborted = true ∧
     (write_data false false ⟨9, 0, 512, fun _ => 0⟩ ⟨fun _ => 7, 4⟩ 0 4 0 8 []).d =
       (⟨fun _ => 7, 4⟩ : Disk)) :=
  ⟨by omega,
   oversized_request_handling false false ⟨9, 0, 512, fun _ => 0⟩ ⟨fun _ => 7, 4⟩
     0 4 0 8 0 8 [] (by omega) (by omega)⟩

/-- C9: over any sequence of requests in a session, the buffer size is
monotone non-decreasing (it grows on demand and never shrinks), given
the startup invariant that it does not exceed the address-space clamp
(the default 64 MiB initial value satisfies it). -/
theorem buffer_size_monotone (vhd_mode shm_mode ro : Bool) (c : VhdCfg) (image_offset : Nat)
    (st : SrvState) (rs : List Request) (hb : st.bs ≤ maxBuf) :
    st.bs ≤ (do_comm vhd_mode shm_mode ro c image_offset st rs).bs :=
  (do_comm_bs_mono_aux vhd_mode shm_mode ro c image_offset rs st hb).1

/-- C10 (counterexample): a payload byte past the transferred count can
be nonzero in VHD mode.  Block size 16, BAT entry 0 points past
end-of-file (its physical read transfers 0 bytes), BAT entry 1 points
at sector 1 whose data sector holds 0xAA bytes.  A 32-byte read
transfers 16 bytes in total, yet payload byte 16 — at a position not
below the transferred count — is 0xAA, because the short transfer
happened in the first, not the last, part. -/
theorem read_data_byte_beyond_transfer_counterexample :
    let c : VhdCfg := ⟨4, 0, 32, fun _ => 0⟩
    let d : Disk := ⟨fun n => if n = 3 then 100 else if n = 7 then 1 else
      if 1024 ≤ n ∧ n < 1040 then 170 else 0, 1040⟩
    read_transferred true false c d 0 64 0 32 = 16 ∧
    (read_data true false c d 0 64 0 32).errorno = 0 ∧
    (read_data true false c d 0 64 0 32).payload.getD 16 0 = 170 := by
  refine ⟨by decide, by decide, by decide⟩

/-- C10 (amended): the server zeroes the I/O buffer before the logical
read, so in non-VHD mode — where the backing store fills a prefix of
the buffer — every payload byte at or past the transferred count is
zero.  (In VHD mode a short physical read in a non-final part can leave
transferred data past the reported count, see the counterexample.) -/
theorem read_data_zero_fill_beyond_transfer (shm_mode : Bool) (c : VhdCfg) (d : Disk)
    (image_offset bs roff rlen i : Nat)
    (hi : (read_transferred false shm_mode c d image_offset bs roff rlen).toNat ≤ i) :
    (read_data false shm_mode c d image_offset bs roff rlen).payload.getD i 0 = 0 := by
  simp only [read_transferred, Bool.false_eq_true, if_false, Int.toNat_ofNat] at hi
  have hne : ¬ ((preadLen d (min rlen (if rlen > bs then buf_realloc shm_mode bs rlen else bs))
      (image_offset + roff) : Int) = -1) := by
    intro hcon
    omega
  simp only [read_data, Bool.false_eq_true, if_false, if_neg hne]
  set bs1 := if rlen > bs then buf_realloc shm_mode bs rlen else bs with hbs1
  set size := min rlen bs1 with hsize
  set off := image_offset + roff with hoff
  set k := preadLen d size off with hk
  have hkd : k ≤ size := min_le_left _ _
  have hlen : (preadBytes d size off).length = k := by
    simp [preadBytes, hk]
  have hdrop : (List.replicate size (0 : Nat)).drop k = List.replicate (size - k) 0 :=
    List.drop_replicate ..
  rw [hdrop]
  have hlen2 : (preadBytes d size off ++ List.replicate (size - k) (0 : Nat)).length = size := by
    simp [hlen]; omega
  rw [List.take_of_length_le (le_of_eq hlen2)]
  rw [List.getD_append_right _ _ _ _ (by omega : (preadBytes d size off).length ≤ i)]
  simp [List.getD]

/-- Witness for the amended C10 at a concrete input: a short non-VHD
read (4 of 8 bytes transferred); payload byte 4 is zero. -/
theorem read_data_zero_fill_beyond_transfer_witness :
    (read_transferred false false ⟨9, 0, 512, fun _ => 0⟩ ⟨fun _ => 7, 4⟩ 0 8 0 8).toNat ≤ 4 ∧
    (read_data false false ⟨9, 0, 512, fun _ => 0⟩ ⟨fun _ => 7, 4⟩ 0 8 0 8).payload.getD 4 0 = 0 :=
  ⟨by decide, read_data_zero_fill_beyond_transfer false _ _ 0 8 0 8 4 (by decide)⟩

/-- C6 (counterexample): a physical data write that transfers fewer
bytes than requested does not turn the request into a failure.  On a
VHD whose BAT entry 0 is allocated at sector 1, writing 8 bytes while
the backing store transfers only 4 makes `vhd_write` return 4 — not the
-1 sentinel the claim requires for every short physical write. -/
theorem vhd_write_short_data_write_counterexample :
    let c : VhdCfg := ⟨9, 0, 512, fun _ => 0⟩
    let d : Disk := ⟨fun n => if n = 3 then 1 else 0, 2048⟩
    (vhd_write c ⟨d, [⟨4, 0⟩], 0⟩ (List.replicate 8 1) 0).1 = 4 ∧
    ((4 : Int) ≠ -1) := by
  refine ⟨by decide, by decide⟩

/-- Witness for C9: a session starting at the default buffer size whose
only request is an oversized read. -/
theorem buffer_size_monotone_witness :
    (⟨DEF_BUFFER_SIZE, ⟨fun _ => 0, 4⟩⟩ : SrvState).bs ≤ maxBuf ∧
    (⟨DEF_BUFFER_SIZE, ⟨fun _ => 0, 4⟩⟩ : SrvState).bs ≤
      (do_comm false false false ⟨9, 0, 512, fun _ => 0⟩ 0 ⟨DEF_BUFFER_SIZE, ⟨fun _ => 0, 4⟩⟩
        [Request.read 0 (2 ^ 27)]).bs :=
  ⟨by decide,
   buffer_size_monotone false false false ⟨9, 0, 512, fun _ => 0⟩ 0 _
     [Request.read 0 (2 ^ 27)] (by decide)⟩


/-- C3: for requests inside the device on a well-formed image,
`vhd_read` returns the result of the reference read algorithm of spec
section 4.C (same return value and same buffer contents; the only
difference is the duplicated physical read of the first part, which on
the deterministic backing store yields the same data), and a request
past `current_size` returns 0 with no physical I/O at all (empty
trace). -/
theorem vhd_read_matches_reference (c : VhdCfg) (d : Disk) (io : List Nat) (offset : Nat)
    (hwf : ReadWellFormed c d) :
    (offset + io.length ≤ c.current_size →
      (vhd_read c d io offset).res = (vhd_read_spec c d io offset).res ∧
      (vhd_read c d io offset).buf = (vhd_read_spec c d io offset).buf) ∧
    (c.current_size < offset + io.length → vhd_read c d io offset = ⟨0, io, []⟩) := by
  constructor
  · intro hclip
    exact vhd_read_go_agree c d hwf (io.length + 1) io io offset rfl (by omega) hclip
  · intro hover
    show vhd_read_go c d (io.length + 1) io offset = _
    simp only [vhd_read_go]
    rw [if_pos (by omega : offset + io.length > c.current_size)]

/-- Witness for C3: a concrete two-block VHD (block size 16) with one
allocated and one sparse entry, well-formed, read inside the device. -/
theorem vhd_read_matches_reference_witness :
    let c : VhdCfg := ⟨4, 0, 32, fun _ => 0⟩
    let d : Disk := ⟨fun n => if n = 3 then 1 else if 4 ≤ n ∧ n < 8 then 255 else
      if 1024 ≤ n then 170 else 0, 1536⟩
    ReadWellFormed c d ∧
    ((vhd_read c d (List.replicate 8 0) 0).res = (vhd_read_spec c d (List.replicate 8 0) 0).res ∧
     (vhd_read c d (List.replicate 8 0) 0).buf = (vhd_read_spec c d (List.replicate 8 0) 0).buf) := by
  exact ⟨⟨by decide, by decide⟩,
    (vhd_read_matches_reference _ _ _ 0 ⟨by decide, by decide⟩).1 (by decide)⟩


/-- C4: over any sequence of writes against a well-formed dynamic VHD
with a reliable backing store, the image stays well-formed, and in
particular the last 512 bytes of the image file are the footer observed
at startup, byte-identical — each block allocation rewrites the saved
footer at the new end-of-file. -/
theorem vhd_write_footer_preserved (c : VhdCfg) (hc : CfgOk c) (d : Disk) (hInv : Inv c d)
    (ops : List (List Nat × Nat)) (hbytes : ∀ op ∈ ops, ∀ x ∈ op.1, x < 256) :
    Inv c (ops.foldl (fun st op => (vhd_write c ⟨st, [], 0⟩ op.1 op.2).2.d) d) ∧
    ∀ i < 512,
      (ops.foldl (fun st op => (vhd_write c ⟨st, [], 0⟩ op.1 op.2).2.d) d).data
        ((ops.foldl (fun st op => (vhd_write c ⟨st, [], 0⟩ op.1 op.2).2.d) d).size - 512 + i) =
      c.footer i := by
  have main : ∀ (ops : List (List Nat × Nat)) (d : Disk), Inv c d →
      (∀ op ∈ ops, ∀ x ∈ op.1, x < 256) →
      Inv c (ops.foldl (fun st op => (vhd_write c ⟨st, [], 0⟩ op.1 op.2).2.d) d) := by
    intro ops
    induction ops with
    | nil => intro d hI _; exact hI
    | cons op rest ih =>
      intro d hI hb
      simp only [List.foldl_cons]
      apply ih
      · exact (vhd_write_go_inv c hc (op.1.length + 1) d 0 op.1 op.2 hI
          (hb op (by simp)) (by omega)).1
      · intro op2 h2 x hx
        exact hb op2 (by simp [h2]) x hx
  have hmain := main ops d hInv hbytes
  exact ⟨hmain, fun i hi => hmain.2.2.2.1 i hi⟩

set_option maxRecDepth 100000 in
/-- Witness for C4: a concrete one-block VHD and a single nonzero
write, which allocates the block; the new last 512 bytes equal the
startup footer. -/
theorem vhd_write_footer_preserved_witness :
    let c : VhdCfg := ⟨9, 0, 512, fun _ => 0⟩
    let d : Disk := ⟨fun n => if n < 4 then 255 else 0, 1024⟩
    let ops : List (List Nat × Nat) := [(List.replicate 8 170, 0)]
    CfgOk c ∧ Inv c d ∧
    (∀ i < 512,
      (ops.foldl (fun st op => (vhd_write c ⟨st, [], 0⟩ op.1 op.2).2.d) d).data
        ((ops.foldl (fun st op => (vhd_write c ⟨st, [], 0⟩ op.1 op.2).2.d) d).size - 512 + i) =
      c.footer i) := by
  have hcfg : CfgOk ⟨9, 0, 512, fun _ => 0⟩ := by unfold CfgOk; decide
  have hinv : Inv ⟨9, 0, 512, fun _ => 0⟩ ⟨fun n => if n < 4 then 255 else 0, 1024⟩ := by
    unfold Inv; decide
  exact ⟨hcfg, hinv,
    (vhd_write_footer_preserved _ hcfg _ hinv [(List.replicate 8 170, 0)] (by decide)).2⟩


/-- C6 (amended): failure behavior of the four physical writes in a
single-block `vhd_write`.  A BAT-entry, block-plus-footer, or
allocation-bitmap transfer that fails or comes up short fails the whole
request with the sentinel -1 and the backing store's errno (substituted
by E2BIG when it is 0), and the bytes already written by earlier
physical writes are not rolled back; the caller's data write, however,
fails only when it returns -1 — a short but nonnegative data transfer
leaves the request successful, returning the short count (the
divergence from the original claim). -/
theorem vhd_write_failure_modes (c : VhdCfg) (d0 : Disk) (io : List Nat) (offset : Nat)
    (e0 e2 ea eb : Nat) (rest : List WRes) (r : Int) (k : Nat)
    (hsize : 1 ≤ io.length)
    (hclip : offset + io.length ≤ c.current_size)
    (hsplit : io.length + (offset &&& (block_size c - 1)) ≤ block_size c)
    (htab : preadLen d0 4 (c.table_offset + ((offset >>> c.block_shift) <<< 2)) = 4) :
    (batSparse d0 (c.table_offset + ((offset >>> c.block_shift) <<< 2)) = false →
      vhd_write c ⟨d0, ⟨-1, e2⟩ :: rest, e0⟩ io offset = (-1, ⟨d0, rest, e2⟩)) ∧
    (batSparse d0 (c.table_offset + ((offset >>> c.block_shift) <<< 2)) = false →
      k ≤ io.length →
      (r < 0 ∨ r.toNat < (((io.length + sector_size - 1) >>> sector_shift) + 7) >>> 3) →
      ∃ df : Disk,
        vhd_write c ⟨d0, ⟨(k : Int), ea⟩ :: ⟨r, eb⟩ :: rest, e0⟩ io offset =
          (-1, ⟨df, rest, errSubst (if r < 0 then eb else e0)⟩) ∧
        (r < 0 → df = pwrite d0 (fun j => io.getD j 0) k
          ((batValue d0 (c.table_offset + ((offset >>> c.block_shift) <<< 2)) <<< sector_shift) +
            sector_size + (offset &&& (block_size c - 1))))) ∧
    (batSparse d0 (c.table_offset + ((offset >>> c.block_shift) <<< 2)) = false →
      k ≤ io.length →
      (vhd_write c ⟨d0, [⟨(k : Int), ea⟩], e0⟩ io offset).1 = (k : Int)) ∧
    (batSparse d0 (c.table_offset + ((offset >>> c.block_shift) <<< 2)) = true →
      (r < 0 ∨ r.toNat < 4) →
      ∃ df : Disk,
        vhd_write c ⟨d0, ⟨r, eb⟩ :: rest, e0⟩ io offset =
          (-1, ⟨df, rest, errSubst (if r < 0 then eb else e0)⟩) ∧
        (r < 0 → df = d0)) ∧
    (batSparse d0 (c.table_offset + ((offset >>> c.block_shift) <<< 2)) = true →
      (r < 0 ∨ r.toNat < sector_size + block_size c + sector_size) →
      ∃ df : Disk,
        vhd_write c ⟨d0, ⟨4, ea⟩ :: ⟨r, eb⟩ :: rest, e0⟩ io offset =
          (-1, ⟨df, rest, errSubst (if r < 0 then eb else e0)⟩) ∧
        (r < 0 → df = pwrite d0
          (be32Bytes (((d0.size - sector_size) >>> sector_shift) % 2 ^ 32)) 4
          (c.table_offset + ((offset >>> c.block_shift) <<< 2)))) := by
  refine ⟨?_, ?_, ?_, ?_, ?_⟩
  · intro hns
    rw [vhd_write_single_part c ⟨d0, ⟨-1, e2⟩ :: rest, e0⟩ io offset hsize hclip hsplit htab]
    rw [if_neg (show ¬ (batSparse (⟨d0, ⟨-1, e2⟩ :: rest, e0⟩ : WState).d
      (c.table_offset + ((offset >>> c.block_shift) <<< 2)) = true) by simp [hns])]
    simp only [Sum.elim_inr, vhd_write_data_bitmap_data_neg, Sum.elim_inl]
  · intro hns hk hr
    obtain ⟨df, heq, hroll⟩ := vhd_write_data_bitmap_bitmap_err d0 e0 ea eb rest k r
      (batValue d0 (c.table_offset + ((offset >>> c.block_shift) <<< 2)))
      (offset &&& (block_size c - 1)) io.length io hk hr
    refine ⟨df, ?_, hroll⟩
    rw [vhd_write_single_part c ⟨d0, ⟨(k : Int), ea⟩ :: ⟨r, eb⟩ :: rest, e0⟩ io offset
      hsize hclip hsplit htab]
    rw [if_neg (show ¬ (batSparse (⟨d0, ⟨(k : Int), ea⟩ :: ⟨r, eb⟩ :: rest, e0⟩ : WState).d
      (c.table_offset + ((offset >>> c.block_shift) <<< 2)) = true) by simp [hns])]
    simp only [Sum.elim_inr, heq, Sum.elim_inl]
  · intro hns hk
    rw [vhd_write_single_part c ⟨d0, [⟨(k : Int), ea⟩], e0⟩ io offset hsize hclip hsplit htab]
    rw [if_neg (show ¬ (batSparse (⟨d0, [⟨(k : Int), ea⟩], e0⟩ : WState).d
      (c.table_offset + ((offset >>> c.block_shift) <<< 2)) = true) by simp [hns])]
    simp only [Sum.elim_inr,
      vhd_write_data_bitmap_data_short d0 e0 ea k
        (batValue d0 (c.table_offset + ((offset >>> c.block_shift) <<< 2)))
        (offset &&& (block_size c - 1)) io.length io hk]
  · intro hsp hr
    obtain ⟨df, heq, hroll⟩ := vhd_alloc_block_bat_err c d0 e0 eb rest r
      (c.table_offset + ((offset >>> c.block_shift) <<< 2)) hr
    refine ⟨df, ?_, hroll⟩
    rw [vhd_write_single_part c ⟨d0, ⟨r, eb⟩ :: rest, e0⟩ io offset hsize hclip hsplit htab]
    rw [if_pos (show batSparse (⟨d0, ⟨r, eb⟩ :: rest, e0⟩ : WState).d
      (c.table_offset + ((offset >>> c.block_shift) <<< 2)) = true from hsp)]
    simp only [heq, Sum.elim_inl]
  · intro hsp hr
    obtain ⟨df, heq, hroll⟩ := vhd_alloc_block_block_err c d0 e0 ea eb rest r
      (c.table_offset + ((offset >>> c.block_shift) <<< 2)) hr
    refine ⟨df, ?_, hroll⟩
    rw [vhd_write_single_part c ⟨d0, ⟨4, ea⟩ :: ⟨r, eb⟩ :: rest, e0⟩ io offset
      hsize hclip hsplit htab]
    rw [if_pos (show batSparse (⟨d0, ⟨4, ea⟩ :: ⟨r, eb⟩ :: rest, e0⟩ : WState).d
      (c.table_offset + ((offset >>> c.block_shift) <<< 2)) = true from hsp)]
    simp only [heq, Sum.elim_inl]

/-- Witness for the amended C6 at a concrete input: on a one-block VHD
with a sparse BAT entry, a backing store whose next write fails with
errno 5 makes an 8-byte write fail with -1 and errno 5, leaving the
disk untouched. -/
theorem vhd_write_failure_modes_witness :
    let c : VhdCfg := ⟨9, 0, 512, fun _ => 0⟩
    let d0 : Disk := ⟨fun n => if n < 4 then 255 else 0, 1024⟩
    batSparse d0 0 = true ∧
    (∃ df : Disk,
      vhd_write c ⟨d0, [⟨-1, 5⟩], 0⟩ [1, 2, 3, 4, 5, 6, 7, 8] 0 =
        (-1, ⟨df, [], errSubst (if (-1 : Int) < 0 then 5 else 0)⟩) ∧
      ((-1 : Int) < 0 → df = d0)) := by
  exact ⟨by decide,
    (vhd_write_failure_modes ⟨9, 0, 512, fun _ => 0⟩ ⟨fun n => if n < 4 then 255 else 0, 1024⟩
      [1, 2, 3, 4, 5, 6, 7, 8] 0 0 0 0 5 [] (-1) 0
      (by decide) (by decide) (by decide) (by decide)).2.2.2.1 (by decide) (Or.inl (by decide))⟩

end Devio
